import Mathlib

/-!
Verification of the idea-generation core of the `chatbot` repository
(`helper.py`): the prompt builder, the reply parser, the media pipeline
and the intro-audio path.

Strings are modelled as `List Char`.  Python's `str.strip()` is modelled
for the ASCII whitespace characters (space, tab, newline, carriage
return, vertical tab, form feed), which is the subset relevant to the
parsing convention.  Fallible backend calls (chat completion, image
generation, speech synthesis) are modelled as parameters returning
`Except ε β`; Python exceptions correspond to `Except.error`.
-/

set_option maxHeartbeats 1000000
set_option maxRecDepth 100000

/-- ASCII whitespace, the characters stripped by Python `str.strip()`
that can occur in this pipeline. -/
def pyIsSpace (c : Char) : Bool :=
  c = ' ' || c = '\t' || c = '\n' || c = '\r' || c = '\x0b' || c = '\x0c'

/-- Left part of Python `str.strip()`: drop leading whitespace. -/
def lstrip (s : List Char) : List Char := s.dropWhile pyIsSpace

/-- Right part of Python `str.strip()`: drop trailing whitespace. -/
def rstrip (s : List Char) : List Char := (s.reverse.dropWhile pyIsSpace).reverse

/-- Python `str.strip()`: drop leading and trailing whitespace. -/
def pyStrip (s : List Char) : List Char := rstrip (lstrip s)

/-- The number/title delimiter `". "` searched by `parse_ideas_reply`. -/
def dotSp : List Char := ['.', ' ']

/-- The title/description delimiter `": "` searched by `parse_ideas_reply`. -/
def colSp : List Char := [':', ' ']

/-- Helper for `splitNlNl`: prepend a character to the first segment. -/
def consHead (c : Char) : List (List Char) → List (List Char)
  | [] => [[c]]
  | h :: t => (c :: h) :: t

/-- Python `s.split("\n\n")`: split on the exact two-character blank-line
separator, leftmost-first and non-overlapping. -/
def splitNlNl : List Char → List (List Char)
  | [] => [[]]
  | [c] => [[c]]
  | c1 :: c2 :: rest =>
      if c1 = '\n' ∧ c2 = '\n' then [] :: splitNlNl rest
      else consHead c1 (splitNlNl (c2 :: rest))

/-- Python `s.index(sub)` restricted to success as `some`: index of the
first occurrence of `pat` as a contiguous substring, `none` when absent
(Python raises `ValueError` there, caught by the parser). -/
def findSub (pat : List Char) : List Char → Option Nat
  | [] => if pat = [] then some 0 else none
  | c :: rest =>
      if pat <+: (c :: rest) then some 0
      else (findSub pat rest).map (· + 1)

/-- A parsed idea: the dict `{"idea": title, "description": description}`
built by `parse_ideas_reply`. -/
structure IdeaRecord where
  idea : List Char
  description : List Char
deriving DecidableEq

/-- The body of the per-item loop of `parse_ideas_reply`, applied to the
already-stripped candidate line: skip an empty line, locate `". "`, locate
`": "` starting after it, slice out the title and the description, strip
them, and drop the candidate unless both are non-empty. -/
def parseLine (line : List Char) : Option IdeaRecord :=
  if line = [] then none
  else
    match findSub dotSp line with
    | none => none
    | some dot_index =>
      match (findSub colSp (line.drop (dot_index + 2))).map
          (fun k => dot_index + 2 + k) with
      | none => none
      | some colon_index =>
        let title := pyStrip ((line.drop (dot_index + 2)).take
          (colon_index - (dot_index + 2)))
        let description := pyStrip (line.drop (colon_index + 2))
        if title ≠ [] ∧ description ≠ [] then
          some { idea := title, description := description }
        else none

/-- One iteration of the `for item in items` loop: strip the candidate,
then run the delimiter logic. -/
def parseItem (item : List Char) : Option IdeaRecord :=
  parseLine (pyStrip item)

/-- `parse_ideas_reply` from `helper.py`: strip the raw reply, split on
blank lines, and keep, in encounter order, every candidate that parses. -/
def parse_ideas_reply (reply : List Char) : List IdeaRecord :=
  (splitNlNl (pyStrip reply)).filterMap parseItem

/-- Text of the prompt template before the interpolated topic. -/
def promptPre : List Char :=
  "\nGive me a list of 5 ideas for the future of ".toList

/-- Text of the prompt template after the interpolated topic. -/
def promptSuf : List Char :=
  (" in the context of convention centers.\nEach idea must be formatted as:\n<number>. <Title>: <Description>\n\nRules:\n- Always include a colon \":\" between the idea title and its description.\n- Use exactly one blank line between ideas.\n- Do not include bullet points or parentheses.\n- Example format:\n\n1. Smart Roofs: Solar panels that change color to adjust heat absorption.\n\n2. Floating Stages: Modular stages that hover above crowds.\n\nReturn only the list, nothing else.\n").toList

/-- `build_ideas_prompt` from `helper.py`: the f-string with the topic
interpolated, then stripped. -/
def build_ideas_prompt (topic : List Char) : List Char :=
  pyStrip (promptPre ++ topic ++ promptSuf)

/-- The prompt text after the interpolated topic with its trailing
newline stripped; `build_ideas_prompt` ends with exactly this text. -/
def promptSufStripped : List Char :=
  (" in the context of convention centers.\nEach idea must be formatted as:\n<number>. <Title>: <Description>\n\nRules:\n- Always include a colon \":\" between the idea title and its description.\n- Use exactly one blank line between ideas.\n- Do not include bullet points or parentheses.\n- Example format:\n\n1. Smart Roofs: Solar panels that change color to adjust heat absorption.\n\n2. Floating Stages: Modular stages that hover above crowds.\n\nReturn only the list, nothing else.").toList

/-- The format instruction of the prompt: the lines prescribing
`<number>. <Title>: <Description>`. -/
def formatRuleBlock : List Char :=
  "Each idea must be formatted as:\n<number>. <Title>: <Description>".toList

/-- The rules block of the prompt, verbatim. -/
def rulesRuleBlock : List Char :=
  ("Rules:\n- Always include a colon \":\" between the idea title and its description.\n- Use exactly one blank line between ideas.\n- Do not include bullet points or parentheses.").toList

/-- `call_chat_for_ideas` from `helper.py`.  The chat backend (the
OpenAI client call with its fixed system message and model identifier)
is an external collaborator, modelled as the parameter `chat` mapping
the user prompt to the reply text or an error. -/
def call_chat_for_ideas {ε : Type} (chat : List Char → Except ε (List Char))
    (topic : List Char) : Except ε (List Char) :=
  chat (build_ideas_prompt topic)

/-- A bundle built by `generate_ideas_with_media`: the dict with keys
`"idea"`, `"description"`, `"image"`, `"audio"`.  `β` is the type of the
generated media payloads (bytes). -/
structure IdeaBundle (β : Type) where
  idea : List Char
  description : List Char
  image : β
  audio : β
deriving DecidableEq

/-- The combined text `f"{idea}: {description}"` used for both image and
voice generation. -/
def textStringOf (r : IdeaRecord) : List Char :=
  r.idea ++ colSp ++ r.description

/-- The narration text `"Beep Boop. Beep Boop. Here is an idea. Consider "
+ text_string`. -/
def voiceTextOf (r : IdeaRecord) : List Char :=
  "Beep Boop. Beep Boop. Here is an idea. Consider ".toList ++ textStringOf r

/-- The body of the per-idea loop of `generate_ideas_with_media`:
generate the image bytes (may fail), then the audio bytes (may fail),
then assemble the bundle.  `generate_image_bytes` and
`generate_audio_bytes` are external backend calls, modelled as the
parameters `imageGen` and `audioGen`. -/
def mediaForIdea {ε β : Type} (imageGen audioGen : List Char → Except ε β)
    (r : IdeaRecord) : Except ε (IdeaBundle β) :=
  match imageGen (textStringOf r) with
  | .error e => .error e
  | .ok image_bytes =>
    match audioGen (voiceTextOf r) with
    | .error e => .error e
    | .ok audio_bytes =>
      .ok { idea := r.idea, description := r.description,
            image := image_bytes, audio := audio_bytes }

/-- The `for item in structured_ideas` loop of `generate_ideas_with_media`:
process the retained ideas in order, appending each bundle to the result;
the first failure aborts the whole call and nothing is returned. -/
def processIdeas {ε β : Type} (imageGen audioGen : List Char → Except ε β) :
    List IdeaRecord → Except ε (List (IdeaBundle β))
  | [] => .ok []
  | r :: rest =>
    match mediaForIdea imageGen audioGen r with
    | .error e => .error e
    | .ok b =>
      match processIdeas imageGen audioGen rest with
      | .error e => .error e
      | .ok bs => .ok (b :: bs)

/-- `generate_ideas_with_media` from `helper.py`: call the chat backend,
parse the reply, keep the first `num_ideas` records
(`structured_ideas[:num_ideas]`), and generate media for each retained
record in order, failing fast. -/
def generate_ideas_with_media {ε β : Type}
    (chat : List Char → Except ε (List Char))
    (imageGen audioGen : List Char → Except ε β)
    (topic : List Char) (num_ideas : Nat) : Except ε (List (IdeaBundle β)) :=
  match call_chat_for_ideas chat topic with
  | .error e => .error e
  | .ok raw_reply =>
    processIdeas imageGen audioGen ((parse_ideas_reply raw_reply).take num_ideas)

/-- The fixed intro template of `generate_intro_audio` with the topic
interpolated. -/
def introText (topic : List Char) : List Char :=
  "Beep Boop. Hello. I am a bot made for ImagineThat. You are interested in the future of ".toList
    ++ topic ++ ". Beep Boop.".toList

/-- `generate_intro_audio` from `helper.py`: synthesize the intro clip and
convert any failure (`except Exception: return None`) into an absent
result. -/
def generate_intro_audio {ε β : Type} (audioGen : List Char → Except ε β)
    (topic : List Char) : Option β :=
  match audioGen (introText topic) with
  | .ok b => some b
  | .error _ => none

/-- Join candidate blocks with exactly one blank line between them, the
well-formed reply shape of the spec. -/
def joinBlocks : List (List Char) → List Char
  | [] => []
  | [b] => b
  | b :: bs => b ++ '\n' :: '\n' :: joinBlocks bs

/-- A well-formed reply block, before being joined: the text
`<number>. <Ti>: <Di>` decomposed into its number, title and
description parts. -/
structure RawBlock where
  num : List Char
  title : List Char
  descr : List Char
deriving DecidableEq

/-- The flat text of a raw block. -/
def blockText (b : RawBlock) : List Char :=
  b.num ++ dotSp ++ b.title ++ colSp ++ b.descr

/-- The record the parser is expected to produce from a raw block. -/
def recordOf (b : RawBlock) : IdeaRecord :=
  { idea := pyStrip b.title, description := pyStrip b.descr }

/-- The well-formedness conditions on a block exactly as claim C1 states
them: the number is a numeral, title and description are non-empty after
trimming, the title contains neither `". "` nor `": "`, and the
description contains no blank line. -/
def WellFormedStated (b : RawBlock) : Prop :=
  b.num ≠ [] ∧ (∀ c ∈ b.num, c.isDigit) ∧
  pyStrip b.title ≠ [] ∧ pyStrip b.descr ≠ [] ∧
  ¬ dotSp <:+: b.title ∧ ¬ colSp <:+: b.title ∧
  ¬ ['\n', '\n'] <:+: b.descr

instance (b : RawBlock) : Decidable (WellFormedStated b) := by
  unfold WellFormedStated; infer_instance

/-- The well-formedness conditions with the amendment forced by the
counterexample to C1: additionally, the title contains no blank line. -/
def WellFormedAmended (b : RawBlock) : Prop :=
  WellFormedStated b ∧ ¬ ['\n', '\n'] <:+: b.title

instance (b : RawBlock) : Decidable (WellFormedAmended b) := by
  unfold WellFormedAmended; infer_instance

/-! ### Whitespace and stripping lemmas -/

theorem lstrip_nil : lstrip [] = [] := rfl

theorem lstrip_cons_of_space {c : Char} (s : List Char)
    (hc : pyIsSpace c = true) : lstrip (c :: s) = lstrip s := by
  simp [lstrip, List.dropWhile_cons, hc]

theorem lstrip_cons_of_nonspace {c : Char} (s : List Char)
    (hc : pyIsSpace c = false) : lstrip (c :: s) = c :: s := by
  simp [lstrip, List.dropWhile_cons, hc]

theorem lstrip_eq_nil_iff {s : List Char} :
    lstrip s = [] ↔ ∀ c ∈ s, pyIsSpace c := by
  simp [lstrip, List.dropWhile_eq_nil_iff]

theorem rstrip_eq_nil_iff {s : List Char} :
    rstrip s = [] ↔ ∀ c ∈ s, pyIsSpace c := by
  simp [rstrip, List.dropWhile_eq_nil_iff]

theorem lstrip_append (a b : List Char) :
    lstrip (a ++ b) = if lstrip a = [] then lstrip b else lstrip a ++ b := by
  simp only [lstrip, List.dropWhile_append, List.isEmpty_iff]

theorem lstrip_append_space {w : List Char} (s : List Char)
    (hw : ∀ c ∈ w, pyIsSpace c) : lstrip (w ++ s) = lstrip s := by
  simp [lstrip, List.dropWhile_append_of_pos hw]

theorem rstrip_append_space {w : List Char} (s : List Char)
    (hw : ∀ c ∈ w, pyIsSpace c) : rstrip (s ++ w) = rstrip s := by
  have hw' : ∀ c ∈ w.reverse, pyIsSpace c := by
    intro c hc; exact hw c (List.mem_reverse.mp hc)
  simp [rstrip, List.reverse_append, List.dropWhile_append_of_pos hw']

theorem rstrip_append_of_ne (a : List Char) {b : List Char}
    (h : rstrip b ≠ []) : rstrip (a ++ b) = a ++ rstrip b := by
  have hb : ¬ (b.reverse.dropWhile pyIsSpace).isEmpty = true := by
    intro hemp
    exact h (by simp [rstrip, List.isEmpty_iff.mp hemp])
  simp only [rstrip, List.reverse_append, List.dropWhile_append, if_neg hb,
    List.reverse_append, List.reverse_reverse]

theorem exists_lstrip_decomp (s : List Char) :
    ∃ w, (∀ c ∈ w, pyIsSpace c) ∧ s = w ++ lstrip s := by
  refine ⟨s.takeWhile pyIsSpace, ?_, ?_⟩
  · intro c hc; exact List.mem_takeWhile_imp hc
  · exact (List.takeWhile_append_dropWhile pyIsSpace s).symm

theorem exists_rstrip_decomp (s : List Char) :
    ∃ w, (∀ c ∈ w, pyIsSpace c) ∧ s = rstrip s ++ w := by
  refine ⟨(s.reverse.takeWhile pyIsSpace).reverse, ?_, ?_⟩
  · intro c hc
    exact List.mem_takeWhile_imp (List.mem_reverse.mp hc)
  · have := List.takeWhile_append_dropWhile pyIsSpace s.reverse
    calc s = s.reverse.reverse := (List.reverse_reverse s).symm
    _ = (s.reverse.takeWhile pyIsSpace ++ s.reverse.dropWhile pyIsSpace).reverse := by
          rw [this]
    _ = rstrip s ++ (s.reverse.takeWhile pyIsSpace).reverse := by
          rw [List.reverse_append]; rfl

theorem pyStrip_append_space_left {w : List Char} (s : List Char)
    (hw : ∀ c ∈ w, pyIsSpace c) : pyStrip (w ++ s) = pyStrip s := by
  simp [pyStrip, lstrip_append_space s hw]

theorem pyStrip_append_space_right {w : List Char} (s : List Char)
    (hw : ∀ c ∈ w, pyIsSpace c) : pyStrip (s ++ w) = pyStrip s := by
  unfold pyStrip
  rw [lstrip_append]
  by_cases h : lstrip s = []
  · rw [if_pos h, h]
    have : lstrip w = [] := lstrip_eq_nil_iff.mpr hw
    rw [this]
  · rw [if_neg h, rstrip_append_space _ hw]

theorem pyStrip_cons_space {c : Char} (s : List Char)
    (hc : pyIsSpace c) : pyStrip (c :: s) = pyStrip s := by
  have := pyStrip_append_space_left (w := [c]) s (by simpa using hc)
  simpa using this

theorem rstrip_ne_nil {s : List Char} (h : pyStrip s ≠ []) : rstrip s ≠ [] := by
  intro hr
  apply h
  have hall : ∀ c ∈ s, pyIsSpace c := rstrip_eq_nil_iff.mp hr
  have : lstrip s = [] := lstrip_eq_nil_iff.mpr hall
  simp [pyStrip, this, rstrip]

theorem pyStrip_sub (s : List Char) : pyStrip s <:+: s := by
  obtain ⟨w, _, hw⟩ := exists_lstrip_decomp s
  obtain ⟨w', _, hw'⟩ := exists_rstrip_decomp (lstrip s)
  refine ⟨w, w', ?_⟩
  conv_rhs => rw [hw, hw']
  simp [pyStrip, List.append_assoc]

theorem head_dropWhile_false {p : Char → Bool} {l : List Char} {c : Char}
    {t : List Char} (h : l.dropWhile p = c :: t) : p c = false := by
  induction l with
  | nil => simp at h
  | cons a l ih =>
    rw [List.dropWhile_cons] at h
    by_cases ha : p a = true
    · rw [if_pos ha] at h; exact ih h
    · rw [if_neg ha] at h
      obtain ⟨h1, _⟩ := List.cons.inj h
      subst h1
      exact Bool.not_eq_true _ ▸ ha

theorem dropWhile_idem (p : Char → Bool) (l : List Char) :
    (l.dropWhile p).dropWhile p = l.dropWhile p := by
  cases h : l.dropWhile p with
  | nil => simp
  | cons c t =>
    rw [List.dropWhile_cons, head_dropWhile_false h]
    simp

theorem rstrip_idem (s : List Char) : rstrip (rstrip s) = rstrip s := by
  simp [rstrip, List.reverse_reverse, dropWhile_idem]

theorem lstrip_of_rstrip_lstrip (s : List Char) :
    lstrip (rstrip (lstrip s)) = rstrip (lstrip s) := by
  cases h : rstrip (lstrip s) with
  | nil => simp [lstrip]
  | cons c t =>
    have hpre : rstrip (lstrip s) <+: lstrip s := by
      obtain ⟨w, _, hw⟩ := exists_rstrip_decomp (lstrip s)
      exact ⟨w, hw.symm⟩
    obtain ⟨u, hu⟩ := hpre
    rw [h] at hu
    have hc : pyIsSpace c = false := by
      cases hl : lstrip s with
      | nil => rw [hl] at hu; simp at hu
      | cons c' t' =>
        rw [hl] at hu
        obtain ⟨h1, _⟩ := List.cons.inj hu
        subst h1
        exact head_dropWhile_false hl
    rw [← h]
    rw [h]
    exact lstrip_cons_of_nonspace t hc

theorem pyStrip_idem (s : List Char) : pyStrip (pyStrip s) = pyStrip s := by
  unfold pyStrip
  rw [lstrip_of_rstrip_lstrip, rstrip_idem]

/-! ### Substring occurrence lemmas -/

/-- No blank-line separator occurs inside `s`. -/
def NoNlNl (s : List Char) : Prop := ¬ ['\n', '\n'] <:+: s

instance (s : List Char) : Decidable (NoNlNl s) := by
  unfold NoNlNl; infer_instance

theorem sub_trans {a b c : List Char} (h1 : a <:+: b) (h2 : b <:+: c) :
    a <:+: c := by
  obtain ⟨u, v, h1⟩ := h1
  obtain ⟨u', v', h2⟩ := h2
  exact ⟨u' ++ u, v ++ v', by rw [← h2, ← h1]; simp [List.append_assoc]⟩

theorem sub_of_cons {a : List Char} {c : Char} {t : List Char}
    (h : a <:+: t) : a <:+: (c :: t) := by
  obtain ⟨u, v, h⟩ := h
  exact ⟨c :: u, v, by rw [← h]; rfl⟩

theorem noNlNl_mono {s t : List Char} (hsub : t <:+: s) (hs : NoNlNl s) :
    NoNlNl t := fun hp => hs (sub_trans hp hsub)

theorem noNlNl_tail {c : Char} {t : List Char} (h : NoNlNl (c :: t)) :
    NoNlNl t := fun hp => h (sub_of_cons hp)

theorem pair_pre_iff {x y : Char} {s : List Char} :
    [x, y] <+: s ↔ ∃ t, s = x :: y :: t := by
  constructor
  · rintro ⟨t, rfl⟩; exact ⟨t, rfl⟩
  · rintro ⟨t, rfl⟩; exact ⟨t, rfl⟩

theorem pair_sub_iff {x y : Char} {l : List Char} :
    [x, y] <:+: l ↔ ∃ j, l[j]? = some x ∧ l[j + 1]? = some y := by
  constructor
  · rintro ⟨u, v, rfl⟩
    refine ⟨u.length, ?_, ?_⟩
    · rw [List.append_assoc, List.getElem?_append_right (Nat.le_refl _)]
      simp
    · rw [List.append_assoc, List.getElem?_append_right (Nat.le_succ_of_le (Nat.le_refl _))]
      simp
  · rintro ⟨j, h1, h2⟩
    induction l generalizing j with
    | nil => simp at h1
    | cons c t ih =>
      cases j with
      | zero =>
        simp only [List.getElem?_cons_zero, Option.some.injEq] at h1
        subst h1
        have : t[0]? = some y := by simpa using h2
        obtain ⟨ht, h0⟩ := List.getElem?_eq_some_iff.mp this
        obtain ⟨t', rfl⟩ : ∃ t', t = y :: t' := by
          cases t with
          | nil => simp at ht
          | cons d t' => simp at h0; exact ⟨t', by rw [h0]⟩
        exact ⟨[], t', rfl⟩
      | succ j =>
        simp only [List.getElem?_cons_succ] at h1 h2
        obtain ⟨u, v, hu⟩ := ih j h1 h2
        exact ⟨c :: u, v, by rw [← hu]; rfl⟩

theorem pair_sub_append {x y : Char} (a b : List Char) :
    [x, y] <:+: (a ++ b) ↔
      [x, y] <:+: a ∨ [x, y] <:+: b ∨
        (a.getLast? = some x ∧ b.head? = some y) := by
  rw [pair_sub_iff, pair_sub_iff, pair_sub_iff, List.getLast?_eq_getElem?,
    List.head?_eq_getElem?]
  constructor
  · rintro ⟨j, h1, h2⟩
    rw [List.getElem?_append] at h1 h2
    by_cases hj1 : j + 1 < a.length
    · left
      exact ⟨j, by rwa [if_pos (Nat.lt_of_succ_lt hj1)] at h1, by rwa [if_pos hj1] at h2⟩
    · by_cases hj : j < a.length
      · right; right
        have hlen : j + 1 = a.length := by omega
        constructor
        · rw [if_pos hj] at h1
          have : a.length - 1 = j := by omega
          rw [this]; exact h1
        · rw [if_neg hj1] at h2
          have : j + 1 - a.length = 0 := by omega
          rwa [this] at h2
      · right; left
        rw [if_neg hj] at h1
        rw [if_neg hj1] at h2
        refine ⟨j - a.length, h1, ?_⟩
        have : j + 1 - a.length = j - a.length + 1 := by omega
        rwa [this] at h2
  · rintro (⟨j, h1, h2⟩ | ⟨j, h1, h2⟩ | ⟨h1, h2⟩)
    · have hj1 : j + 1 < a.length := (List.getElem?_eq_some_iff.mp h2).1
      refine ⟨j, ?_, ?_⟩
      · rw [List.getElem?_append, if_pos (Nat.lt_of_succ_lt hj1)]; exact h1
      · rw [List.getElem?_append, if_pos hj1]; exact h2
    · refine ⟨a.length + j, ?_, ?_⟩
      · rw [List.getElem?_append_right (by omega)]
        have : a.length + j - a.length = j := by omega
        rwa [this]
      · rw [List.getElem?_append_right (by omega)]
        have : a.length + j + 1 - a.length = j + 1 := by omega
        rwa [this]
    · have ha : a ≠ [] := by
        intro h; subst h; simp at h1
      have halen : 0 < a.length := List.length_pos.mpr ha
      refine ⟨a.length - 1, ?_, ?_⟩
      · rw [List.getElem?_append, if_pos (by omega)]; exact h1
      · rw [List.getElem?_append_right (by omega)]
        have : a.length - 1 + 1 - a.length = 0 := by omega
        rwa [this]

theorem getLast?_decomp {l : List Char} {a : Char} (h : l.getLast? = some a) :
    ∃ t, l = t ++ [a] := by
  induction l with
  | nil => simp at h
  | cons c t ih =>
    cases t with
    | nil =>
      simp only [List.getLast?_singleton, Option.some.injEq] at h
      exact ⟨[], by simp [h]⟩
    | cons d t' =>
      rw [List.getLast?_cons_cons] at h
      obtain ⟨u, hu⟩ := ih h
      exact ⟨c :: u, by rw [List.cons_append, ← hu]⟩

/-! ### Lemmas about `splitNlNl` -/

theorem splitNlNl_nil : splitNlNl [] = [[]] := rfl

theorem splitNlNl_nlnl (rest : List Char) :
    splitNlNl ('\n' :: '\n' :: rest) = [] :: splitNlNl rest := by
  simp [splitNlNl]

theorem splitNlNl_cons_of {c : Char} {s : List Char}
    (h : ¬(c = '\n' ∧ s.head? = some '\n')) :
    splitNlNl (c :: s) = consHead c (splitNlNl s) := by
  cases s with
  | nil => rfl
  | cons c2 t =>
    have h' : ¬(c = '\n' ∧ c2 = '\n') := by simpa using h
    simp [splitNlNl, h']

theorem splitNlNl_noSplit {s : List Char} (h : NoNlNl s) :
    splitNlNl s = [s] := by
  induction s with
  | nil => rfl
  | cons c t ih =>
    have hcond : ¬(c = '\n' ∧ t.head? = some '\n') := by
      rintro ⟨rfl, hh⟩
      cases t with
      | nil => simp at hh
      | cons d t' =>
        simp only [List.head?_cons, Option.some.injEq] at hh
        exact h ⟨[], t', by simp [hh]⟩
    rw [splitNlNl_cons_of hcond, ih (noNlNl_tail h)]
    rfl

theorem splitNlNl_block (B s' : List Char) (hB : NoNlNl (B ++ ['\n'])) :
    splitNlNl (B ++ '\n' :: '\n' :: s') = B :: splitNlNl s' := by
  induction B with
  | nil => simpa using splitNlNl_nlnl s'
  | cons c B' ih =>
    have hB' : NoNlNl (B' ++ ['\n']) :=
      noNlNl_tail (by simpa using hB)
    have hcond : ¬(c = '\n' ∧ (B' ++ '\n' :: '\n' :: s').head? = some '\n') := by
      rintro ⟨rfl, hh⟩
      cases B' with
      | nil =>
        exact hB ⟨[], [], by simp⟩
      | cons d B'' =>
        simp only [List.cons_append, List.head?_cons, Option.some.injEq] at hh
        exact hB ⟨[], B'' ++ ['\n'], by rw [hh]; simp⟩
    rw [List.cons_append, splitNlNl_cons_of hcond, ih hB']
    rfl

/-! ### `parseItem` is invariant under surrounding whitespace -/

theorem parseItem_space_left {c : Char} (s : List Char) (hc : pyIsSpace c) :
    parseItem (c :: s) = parseItem s := by
  unfold parseItem
  rw [pyStrip_cons_space s hc]

theorem parseItem_space_right {w : List Char} (s : List Char)
    (hw : ∀ c ∈ w, pyIsSpace c) : parseItem (s ++ w) = parseItem s := by
  unfold parseItem
  rw [pyStrip_append_space_right s hw]

theorem parseItem_nil : parseItem [] = none := rfl

theorem parseItem_single_space {c : Char} (hc : pyIsSpace c) :
    parseItem [c] = none := by
  have : parseItem [c] = parseItem [] := parseItem_space_left [] hc
  rw [this, parseItem_nil]

theorem filterMap_consHead_space {c : Char} (hc : pyIsSpace c)
    (L : List (List Char)) :
    (consHead c L).filterMap parseItem = L.filterMap parseItem := by
  cases L with
  | nil =>
    show [[c]].filterMap parseItem = [].filterMap parseItem
    simp [List.filterMap_cons, parseItem_single_space hc]
  | cons h t =>
    show ((c :: h) :: t).filterMap parseItem = (h :: t).filterMap parseItem
    simp [List.filterMap_cons, parseItem_space_left h hc]

theorem toList_filterMap_cons (f : List Char → Option IdeaRecord)
    (a : List Char) (l : List (List Char)) :
    (a :: l).filterMap f = (f a).toList ++ l.filterMap f := by
  cases h : f a with
  | none => simp [List.filterMap_cons, h]
  | some b => simp [List.filterMap_cons, h]

theorem filterMap_split_step (B s' : List Char) (hB : NoNlNl B)
    (hs : s'.head? ≠ some '\n') :
    (splitNlNl (B ++ '\n' :: '\n' :: s')).filterMap parseItem
      = (parseItem B).toList ++ (splitNlNl s').filterMap parseItem := by
  by_cases hL : B.getLast? = some '\n'
  · obtain ⟨C, rfl⟩ := getLast?_decomp hL
    have hsplit : splitNlNl ((C ++ ['\n']) ++ '\n' :: '\n' :: s')
        = C :: splitNlNl ('\n' :: s') := by
      have : (C ++ ['\n']) ++ '\n' :: '\n' :: s'
          = C ++ '\n' :: '\n' :: ('\n' :: s') := by simp
      rw [this]
      exact splitNlNl_block C ('\n' :: s') (by simpa using hB)
    rw [hsplit, toList_filterMap_cons]
    have hcons : splitNlNl ('\n' :: s') = consHead '\n' (splitNlNl s') :=
      splitNlNl_cons_of (by rintro ⟨-, hh⟩; exact hs hh)
    rw [hcons, filterMap_consHead_space (by decide) (splitNlNl s')]
    rw [parseItem_space_right C (w := ['\n']) (by intro c hc; simp at hc; simp [hc, pyIsSpace])]
  · have hB1 : NoNlNl (B ++ ['\n']) := by
      rw [NoNlNl, pair_sub_append]
      push_neg
      refine ⟨hB, by decide, ?_⟩
      intro hgl
      exact absurd hgl hL
    rw [splitNlNl_block B s' hB1, toList_filterMap_cons]

/-! ### Lemmas about `findSub` -/

theorem findSub_eq_some {pat : List Char} {l : List Char} (i : Nat)
    (h1 : pat <+: l.drop i) (h2 : ∀ j < i, ¬ pat <+: l.drop j) :
    findSub pat l = some i := by
  induction l generalizing i with
  | nil =>
    have hpat : pat = [] := by
      obtain ⟨t, ht⟩ := h1
      simp only [List.drop_nil] at ht
      exact (List.append_eq_nil.mp ht).1
    have hi : i = 0 := by
      by_contra hne
      exact h2 0 (Nat.pos_of_ne_zero hne) (by simp [hpat])
    simp [findSub, hpat, hi]
  | cons c t ih =>
    cases i with
    | zero =>
      simp only [List.drop_zero] at h1
      simp [findSub, h1]
    | succ i =>
      have h0 : ¬ pat <+: (c :: t) := by
        have := h2 0 (Nat.succ_pos i)
        simpa using this
      rw [findSub, if_neg h0]
      have ht : findSub pat t = some i := by
        apply ih
        · simpa [List.drop_succ_cons] using h1
        · intro j hj
          have := h2 (j + 1) (Nat.succ_lt_succ hj)
          simpa [List.drop_succ_cons] using this
      rw [ht]
      rfl

theorem findSub_some_min {pat l : List Char} {i : Nat}
    (h : findSub pat l = some i) :
    pat <+: l.drop i ∧ ∀ j < i, ¬ pat <+: l.drop j := by
  induction l generalizing i with
  | nil =>
    rw [findSub] at h
    by_cases hpat : pat = []
    · rw [if_pos hpat] at h
      obtain rfl : i = 0 := by simpa using h.symm
      exact ⟨by simp [hpat], by omega⟩
    · rw [if_neg hpat] at h
      exact absurd h (by simp)
  | cons c t ih =>
    rw [findSub] at h
    by_cases hp : pat <+: (c :: t)
    · rw [if_pos hp] at h
      obtain rfl : i = 0 := by simpa using h.symm
      exact ⟨by simpa using hp, by omega⟩
    · rw [if_neg hp] at h
      obtain ⟨i', hi', rfl⟩ : ∃ i', findSub pat t = some i' ∧ i = i' + 1 := by
        cases hft : findSub pat t with
        | none => rw [hft] at h; exact absurd h (by simp)
        | some k =>
          rw [hft] at h
          exact ⟨k, rfl, by simpa using h.symm⟩
      obtain ⟨hpre, hmin⟩ := ih hi'
      refine ⟨by simpa [List.drop_succ_cons] using hpre, ?_⟩
      intro j hj
      cases j with
      | zero => simpa using hp
      | succ j =>
        have := hmin j (Nat.lt_of_succ_lt_succ hj)
        simpa [List.drop_succ_cons] using this

theorem sub_cons_iff {a : List Char} {c : Char} {t : List Char} :
    a <:+: (c :: t) ↔ a <+: (c :: t) ∨ a <:+: t := by
  constructor
  · rintro ⟨u, v, hu⟩
    cases u with
    | nil => exact Or.inl ⟨v, by simpa using hu⟩
    | cons d u' =>
      obtain ⟨h1, h2⟩ := List.cons.inj (by simpa using hu)
      exact Or.inr ⟨u', v, by simpa [List.append_assoc] using h2⟩
  · rintro (⟨v, hv⟩ | h)
    · exact ⟨[], v, by simpa using hv⟩
    · exact sub_of_cons h

theorem findSub_none_iff {pat : List Char} (hpat : pat ≠ []) (l : List Char) :
    findSub pat l = none ↔ ¬ pat <:+: l := by
  induction l with
  | nil =>
    rw [findSub, if_neg hpat]
    simp only [true_iff]
    rintro ⟨u, v, hu⟩
    exact hpat (List.append_eq_nil.mp ((List.append_eq_nil.mp hu).1)).2
  | cons c t ih =>
    rw [findSub]
    by_cases hp : pat <+: (c :: t)
    · rw [if_pos hp]
      constructor
      · intro h; exact absurd h (by simp)
      · intro h; exact absurd (sub_cons_iff.mpr (Or.inl hp)) h
    · rw [if_neg hp]
      rw [sub_cons_iff]
      cases hft : findSub pat t with
      | none =>
        simp only [Option.map_none', true_iff]
        rintro (h | h)
        · exact hp h
        · exact (ih.mp hft) h
      | some k =>
        have hsub : pat <:+: t := by
          by_contra hs
          rw [← ih] at hs
          rw [hft] at hs
          exact (Option.some_ne_none k) hs
        constructor
        · intro h; exact absurd h (by simp)
        · intro h; exact absurd (Or.inr hsub) h

theorem sub_of_pre {a l : List Char} (h : a <+: l) : a <:+: l := by
  obtain ⟨t, ht⟩ := h
  exact ⟨[], t, by simpa using ht⟩

/-- First-occurrence position of a two-character delimiter placed after a
text that does not contain it. -/
theorem findSub_delim {x y : Char} (P rest : List Char) (hxy : y ≠ x)
    (hP : ¬ [x, y] <:+: P) :
    findSub [x, y] (P ++ x :: y :: rest) = some P.length := by
  apply findSub_eq_some
  · rw [List.drop_left]
    exact ⟨rest, rfl⟩
  · intro j hj hpre
    obtain ⟨t, ht⟩ := pair_pre_iff.mp hpre
    have hx : (P ++ x :: y :: rest)[j]? = some x := by
      have := List.getElem?_drop (P ++ x :: y :: rest) j 0
      rw [ht] at this
      simpa using this.symm
    have hy : (P ++ x :: y :: rest)[j + 1]? = some y := by
      have := List.getElem?_drop (P ++ x :: y :: rest) j 1
      rw [ht] at this
      simpa using this.symm
    rw [List.getElem?_append_left hj] at hx
    by_cases hj1 : j + 1 < P.length
    · rw [List.getElem?_append_left hj1] at hy
      exact hP (pair_sub_iff.mpr ⟨j, hx, hy⟩)
    · have hlen : j + 1 = P.length := by omega
      rw [List.getElem?_append_right (by omega)] at hy
      have : j + 1 - P.length = 0 := by omega
      rw [this] at hy
      simp only [List.getElem?_cons_zero, Option.some.injEq] at hy
      exact hxy hy.symm

/-! ### Parsing one well-shaped candidate block -/

theorem lstrip_sub (P : List Char) : lstrip P <:+: P := by
  obtain ⟨w, _, hw⟩ := exists_lstrip_decomp P
  exact ⟨w, [], by simpa using hw.symm⟩

theorem pyStrip_rstrip (D : List Char) : pyStrip (rstrip D) = pyStrip D := by
  obtain ⟨w, hw, hdec⟩ := exists_rstrip_decomp D
  conv_rhs => rw [hdec]
  rw [pyStrip_append_space_right _ hw]

theorem pyStrip_block (P T D : List Char) (hD : pyStrip D ≠ []) :
    pyStrip (P ++ (dotSp ++ (T ++ (colSp ++ D))))
      = lstrip P ++ (dotSp ++ (T ++ (colSp ++ rstrip D))) := by
  have hR : lstrip (dotSp ++ (T ++ (colSp ++ D)))
      = dotSp ++ (T ++ (colSp ++ D)) := by
    have hshape : dotSp ++ (T ++ (colSp ++ D))
        = '.' :: (' ' :: (T ++ (colSp ++ D))) := rfl
    rw [hshape]
    exact lstrip_cons_of_nonspace _ (by decide)
  have h1 : lstrip (P ++ (dotSp ++ (T ++ (colSp ++ D))))
      = lstrip P ++ (dotSp ++ (T ++ (colSp ++ D))) := by
    rw [lstrip_append]
    by_cases hp : lstrip P = []
    · rw [if_pos hp, hp, hR]; simp
    · rw [if_neg hp]
  rw [pyStrip, h1]
  have hassoc : lstrip P ++ (dotSp ++ (T ++ (colSp ++ D)))
      = (lstrip P ++ dotSp ++ T ++ colSp) ++ D := by
    simp [List.append_assoc]
  rw [hassoc, rstrip_append_of_ne _ (rstrip_ne_nil hD)]
  simp [List.append_assoc]

theorem parseLine_block (P₁ T D₂ : List Char)
    (hP : ¬ dotSp <:+: P₁) (hT : ¬ colSp <:+: T) :
    parseLine (P₁ ++ (dotSp ++ (T ++ (colSp ++ D₂))))
      = if pyStrip T ≠ [] ∧ pyStrip D₂ ≠ [] then
          some { idea := pyStrip T, description := pyStrip D₂ }
        else none := by
  have hne : ¬ (P₁ ++ (dotSp ++ (T ++ (colSp ++ D₂))) = []) := by
    simp [dotSp]
  have hshape : P₁ ++ (dotSp ++ (T ++ (colSp ++ D₂)))
      = P₁ ++ '.' :: ' ' :: (T ++ (colSp ++ D₂)) := rfl
  have hdot : findSub dotSp (P₁ ++ (dotSp ++ (T ++ (colSp ++ D₂))))
      = some P₁.length := by
    rw [hshape]
    exact findSub_delim P₁ _ (by decide) hP
  have hlen2 : (P₁ ++ dotSp).length = P₁.length + 2 := by simp [dotSp]
  have hdrop : (P₁ ++ (dotSp ++ (T ++ (colSp ++ D₂)))).drop (P₁.length + 2)
      = T ++ (colSp ++ D₂) := by
    have : P₁ ++ (dotSp ++ (T ++ (colSp ++ D₂)))
        = (P₁ ++ dotSp) ++ (T ++ (colSp ++ D₂)) := by simp [List.append_assoc]
    rw [this, List.drop_left' hlen2]
  have hcshape : T ++ (colSp ++ D₂) = T ++ ':' :: ' ' :: D₂ := rfl
  have hcol : findSub colSp (T ++ (colSp ++ D₂)) = some T.length := by
    rw [hcshape]
    exact findSub_delim T _ (by decide) hT
  have harith : P₁.length + 2 + T.length - (P₁.length + 2) = T.length := by omega
  have htake : (T ++ (colSp ++ D₂)).take (T.length) = T :=
    List.take_left' rfl
  have hdrop2 : (P₁ ++ (dotSp ++ (T ++ (colSp ++ D₂)))).drop
      (P₁.length + 2 + T.length + 2) = D₂ := by
    have hsh : P₁ ++ (dotSp ++ (T ++ (colSp ++ D₂)))
        = (P₁ ++ dotSp ++ T ++ colSp) ++ D₂ := by simp [List.append_assoc]
    have hlen : (P₁ ++ dotSp ++ T ++ colSp).length
        = P₁.length + 2 + T.length + 2 := by simp [dotSp, colSp]; omega
    rw [hsh, List.drop_left' hlen]
  simp only [parseLine, if_neg hne, hdot, hcol, Option.map_some', hdrop,
    harith, htake, hdrop2]

theorem parseItem_block (P T D : List Char)
    (hP : ¬ dotSp <:+: P) (hT : ¬ colSp <:+: T) (hD : pyStrip D ≠ []) :
    parseItem (P ++ (dotSp ++ (T ++ (colSp ++ D))))
      = if pyStrip T = [] then none
        else some { idea := pyStrip T, description := pyStrip D } := by
  unfold parseItem
  rw [pyStrip_block P T D hD]
  have hP1 : ¬ dotSp <:+: lstrip P := fun h => hP (sub_trans h (lstrip_sub P))
  rw [parseLine_block (lstrip P) T (rstrip D) hP1 hT]
  rw [pyStrip_rstrip D]
  by_cases ht : pyStrip T = []
  · simp [ht]
  · simp [ht, hD]

/-! ### Parsing a whole well-formed reply -/

theorem no_pair_of_digits {x y : Char} {num : List Char} (hx : ¬ x.isDigit)
    (hnum : ∀ c ∈ num, c.isDigit) : ¬ [x, y] <:+: num := by
  intro h
  obtain ⟨j, h1, _⟩ := pair_sub_iff.mp h
  exact hx (hnum x (List.getElem?_mem h1))

theorem blockText_assoc (b : RawBlock) :
    blockText b = b.num ++ (dotSp ++ (b.title ++ (colSp ++ b.descr))) := by
  simp [blockText, List.append_assoc]

theorem noNlNl_blockText {b : RawBlock} (h : WellFormedAmended b) :
    NoNlNl (blockText b) := by
  obtain ⟨⟨hnum_ne, hdig, hTne, hDne, hTdot, hTcol, hDnl⟩, hTnl⟩ := h
  intro hsub
  rw [blockText_assoc] at hsub
  rw [pair_sub_append] at hsub
  rcases hsub with h | h | ⟨h1, h2⟩
  · exact no_pair_of_digits (by decide) hdig h
  · rw [pair_sub_append] at h
    rcases h with h | h | ⟨h1, h2⟩
    · exact absurd h (by decide)
    · rw [pair_sub_append] at h
      rcases h with h | h | ⟨h1, h2⟩
      · exact hTnl h
      · rw [pair_sub_append] at h
        rcases h with h | h | ⟨h1, h2⟩
        · exact absurd h (by decide)
        · exact hDnl h
        · simp [colSp] at h1
      · simp [colSp] at h2
    · simp [dotSp] at h1
  · simp [dotSp] at h2

theorem parseItem_blockText {b : RawBlock} (h : WellFormedAmended b) :
    parseItem (blockText b) = some (recordOf b) := by
  obtain ⟨⟨hnum_ne, hdig, hTne, hDne, hTdot, hTcol, hDnl⟩, hTnl⟩ := h
  rw [blockText_assoc]
  rw [parseItem_block b.num b.title b.descr
    (no_pair_of_digits (by decide) hdig) hTcol hDne]
  rw [if_neg hTne]
  rfl

theorem parseItem_pyStrip (s : List Char) : parseItem (pyStrip s) = parseItem s := by
  unfold parseItem
  rw [pyStrip_idem]

theorem lstrip_of_head_nonspace {s : List Char} {c : Char}
    (h : s.head? = some c) (hc : ¬ pyIsSpace c) : lstrip s = s := by
  cases s with
  | nil => rfl
  | cons d t =>
    simp only [List.head?_cons, Option.some.injEq] at h
    subst h
    exact lstrip_cons_of_nonspace t (by simpa using hc)

theorem rstrip_ne_of_head_nonspace {s : List Char} {c : Char}
    (h : s.head? = some c) (hc : ¬ pyIsSpace c) : rstrip s ≠ [] := by
  intro hr
  have hall := rstrip_eq_nil_iff.mp hr
  cases s with
  | nil => simp at h
  | cons d t =>
    simp only [List.head?_cons, Option.some.injEq] at h
    exact hc (h ▸ hall d (List.mem_cons_self _ _))

theorem head?_rstrip {s : List Char} (h : rstrip s ≠ []) :
    (rstrip s).head? = s.head? := by
  obtain ⟨w, _, hdec⟩ := exists_rstrip_decomp s
  conv_rhs => rw [hdec]
  rw [List.head?_append]
  cases hh : rstrip s with
  | nil => exact absurd hh h
  | cons c t => simp [hh]

theorem blockText_head {b : RawBlock} (h : WellFormedAmended b) :
    ∃ d, (blockText b).head? = some d ∧ d.isDigit := by
  obtain ⟨⟨hnum_ne, hdig, _⟩, _⟩ := h
  cases hnum : b.num with
  | nil => exact absurd hnum hnum_ne
  | cons d u =>
    refine ⟨d, ?_, hdig d (by rw [hnum]; exact List.mem_cons_self _ _)⟩
    rw [blockText, hnum]
    simp

theorem joinBlocks_head {B : List Char} {L : List (List Char)} {d : Char}
    (h : B.head? = some d) : (joinBlocks (B :: L)).head? = some d := by
  cases L with
  | nil => exact h
  | cons C L' =>
    show (B ++ '\n' :: '\n' :: joinBlocks (C :: L')).head? = some d
    cases B with
    | nil => simp at h
    | cons c t => simpa using h

theorem digit_ne_nl {d : Char} (h : d.isDigit) : d ≠ '\n' := by
  intro hh
  rw [hh] at h
  exact absurd h (by decide)

theorem digit_not_space {d : Char} (h : d.isDigit) : ¬ pyIsSpace d := by
  intro hsp
  simp only [pyIsSpace, Bool.or_eq_true, decide_eq_true_eq] at hsp
  rcases hsp with ((((h1 | h1) | h1) | h1) | h1) | h1 <;>
    (subst h1; exact absurd h (by decide))

theorem parse_wf_blocks (bs : List RawBlock)
    (h : ∀ b ∈ bs, WellFormedAmended b) :
    parse_ideas_reply (joinBlocks (bs.map blockText)) = bs.map recordOf := by
  induction bs with
  | nil => rfl
  | cons b bs' ih =>
    have hb : WellFormedAmended b := h b (List.mem_cons_self _ _)
    cases bs' with
    | nil =>
      show parse_ideas_reply (blockText b) = [recordOf b]
      unfold parse_ideas_reply
      have hnn : NoNlNl (pyStrip (blockText b)) :=
        noNlNl_mono (pyStrip_sub _) (noNlNl_blockText hb)
      rw [splitNlNl_noSplit hnn]
      rw [toList_filterMap_cons]
      rw [parseItem_pyStrip, parseItem_blockText hb]
      rfl
    | cons b2 bs'' =>
      have hrest : ∀ x ∈ b2 :: bs'', WellFormedAmended x :=
        fun x hx => h x (List.mem_cons_of_mem _ hx)
      obtain ⟨d, hd, hddig⟩ := blockText_head hb
      obtain ⟨d2, hd2, hd2dig⟩ := blockText_head (hrest _ (List.mem_cons_self _ _))
      have hrest_head : (joinBlocks ((b2 :: bs'').map blockText)).head? = some d2 := by
        rw [List.map_cons]; exact joinBlocks_head hd2
      have hreply_head : (blockText b ++ '\n' :: '\n' ::
          joinBlocks ((b2 :: bs'').map blockText)).head? = some d := by
        cases hbt : blockText b with
        | nil => rw [hbt] at hd; simp at hd
        | cons c t => rw [hbt] at hd; simpa using hd
      have hl : lstrip (blockText b ++ '\n' :: '\n' ::
          joinBlocks ((b2 :: bs'').map blockText))
          = blockText b ++ '\n' :: '\n' :: joinBlocks ((b2 :: bs'').map blockText) :=
        lstrip_of_head_nonspace hreply_head (digit_not_space hddig)
      have hrne : rstrip (joinBlocks ((b2 :: bs'').map blockText)) ≠ [] :=
        rstrip_ne_of_head_nonspace hrest_head (digit_not_space hd2dig)
      have hr : rstrip (blockText b ++ '\n' :: '\n' ::
          joinBlocks ((b2 :: bs'').map blockText))
          = blockText b ++ '\n' :: '\n' :: rstrip (joinBlocks ((b2 :: bs'').map blockText)) := by
        have hsh : blockText b ++ '\n' :: '\n' :: joinBlocks ((b2 :: bs'').map blockText)
            = (blockText b ++ ['\n', '\n']) ++ joinBlocks ((b2 :: bs'').map blockText) := by
          simp
        rw [hsh, rstrip_append_of_ne _ hrne]
        simp
      have hstrip : pyStrip (blockText b ++ '\n' :: '\n' ::
          joinBlocks ((b2 :: bs'').map blockText))
          = blockText b ++ '\n' :: '\n' :: rstrip (joinBlocks ((b2 :: bs'').map blockText)) := by
        rw [pyStrip, hl, hr]
      show parse_ideas_reply (blockText b ++ '\n' :: '\n' ::
          joinBlocks ((b2 :: bs'').map blockText))
        = recordOf b :: (b2 :: bs'').map recordOf
      unfold parse_ideas_reply
      rw [hstrip]
      have hhead_ne : (rstrip (joinBlocks ((b2 :: bs'').map blockText))).head? ≠ some '\n' := by
        rw [head?_rstrip hrne, hrest_head]
        intro hcontra
        exact digit_ne_nl hd2dig (by simpa using hcontra)
      rw [filterMap_split_step (blockText b) _ (noNlNl_blockText hb) hhead_ne]
      rw [parseItem_blockText hb]
      have hlrest : lstrip (joinBlocks ((b2 :: bs'').map blockText))
          = joinBlocks ((b2 :: bs'').map blockText) :=
        lstrip_of_head_nonspace hrest_head (digit_not_space hd2dig)
      have htail : (splitNlNl (rstrip (joinBlocks ((b2 :: bs'').map blockText)))).filterMap
          parseItem = (b2 :: bs'').map recordOf := by
        have hih := ih hrest
        unfold parse_ideas_reply at hih
        rwa [pyStrip, hlrest] at hih
      rw [htail]
      rfl

theorem pair_pre_of_getElem {x y : Char} {l : List Char} {j : Nat}
    (h1 : l[j]? = some x) (h2 : l[j + 1]? = some y) : [x, y] <+: l.drop j := by
  have g1 : (l.drop j)[0]? = some x := by
    rw [List.getElem?_drop]; simpa using h1
  have g2 : (l.drop j)[1]? = some y := by
    rw [List.getElem?_drop]; simpa using h2
  cases hd : l.drop j with
  | nil => rw [hd] at g1; simp at g1
  | cons a t =>
    rw [hd] at g1 g2
    simp only [List.getElem?_cons_zero, Option.some.injEq] at g1
    cases t with
    | nil => simp at g2
    | cons b t' =>
      simp only [List.getElem?_cons_succ, List.getElem?_cons_zero,
        Option.some.injEq] at g2
      subst g1
      subst g2
      exact ⟨t', rfl⟩

/-- Claim C1 as stated is refuted by a reply whose first block's title
contains a blank line: both blocks satisfy every condition the claim
lists, yet the parser returns one record instead of two. -/
theorem C1_counterexample :
    (∀ b ∈ [({ num := "1".toList, title := "A\n\nB".toList,
                descr := "C".toList } : RawBlock),
             ({ num := "2".toList, title := "T".toList,
                descr := "D".toList } : RawBlock)], WellFormedStated b)
    ∧ parse_ideas_reply (joinBlocks
        (([({ num := "1".toList, title := "A\n\nB".toList,
              descr := "C".toList } : RawBlock),
           ({ num := "2".toList, title := "T".toList,
              descr := "D".toList } : RawBlock)]).map blockText))
      ≠ ([({ num := "1".toList, title := "A\n\nB".toList,
             descr := "C".toList } : RawBlock),
          ({ num := "2".toList, title := "T".toList,
             descr := "D".toList } : RawBlock)]).map recordOf := by
  decide

/-- Claim C1, amended: for a reply that is a sequence of blocks
`<number>. <Ti>: <Di>` separated by exactly one blank line, where each
number is a numeral, each `Ti` and `Di` is non-empty after trimming,
each `Ti` contains neither `". "` nor `": "` nor a blank line, and each
`Di` contains no blank line, `parse_ideas_reply` returns exactly one
record per block, in encounter order, carrying the trimmed title and
description. -/
theorem C1_parse_wellformed_reply (bs : List RawBlock)
    (h : ∀ b ∈ bs, WellFormedAmended b) :
    parse_ideas_reply (joinBlocks (bs.map blockText)) = bs.map recordOf :=
  parse_wf_blocks bs h

theorem C1_witness :
    parse_ideas_reply (joinBlocks
      (([({ num := "1".toList, title := "T1".toList,
            descr := "D1".toList } : RawBlock),
         ({ num := "2".toList, title := "T2".toList,
            descr := "D2".toList } : RawBlock)]).map blockText))
      = ([({ num := "1".toList, title := "T1".toList,
             descr := "D1".toList } : RawBlock),
          ({ num := "2".toList, title := "T2".toList,
             descr := "D2".toList } : RawBlock)]).map recordOf :=
  C1_parse_wellformed_reply _ (by decide)

/-- Claim C2: `parse_ideas_reply` is total; a candidate block whose
trimmed text lacks the `". "` delimiter, or lacks the `": "` delimiter
after the first `". "`, is silently dropped, and the result is exactly
the in-order collection of the candidates that do parse. -/
theorem C2_malformed_dropped (reply : List Char) :
    parse_ideas_reply reply = (splitNlNl (pyStrip reply)).filterMap parseItem
    ∧ (∀ item, ¬ dotSp <:+: pyStrip item → parseItem item = none)
    ∧ (∀ item dot_index, findSub dotSp (pyStrip item) = some dot_index →
        ¬ colSp <:+: (pyStrip item).drop (dot_index + 2) →
        parseItem item = none) := by
  refine ⟨rfl, ?_, ?_⟩
  · intro item hno
    unfold parseItem parseLine
    by_cases he : pyStrip item = []
    · rw [if_pos he]
    · rw [if_neg he, (findSub_none_iff (by decide) _).mpr hno]
  · intro item di hdi hno
    unfold parseItem
    have he : pyStrip item ≠ [] := by
      intro h
      rw [h] at hdi
      have hfs : findSub dotSp ([] : List Char) = none := rfl
      rw [hfs] at hdi
      exact absurd hdi (by simp)
    have hnone : findSub colSp ((pyStrip item).drop (di + 2)) = none :=
      (findSub_none_iff (by decide) _).mpr hno
    simp only [parseLine, if_neg he, hdi, hnone, Option.map_none']

theorem C2_witness :
    parse_ideas_reply "1. A: B\n\nno delimiters here\n\n2. C: D".toList
      = [{ idea := "A".toList, description := "B".toList },
         { idea := "C".toList, description := "D".toList }]
    ∧ parseItem "no delimiters here".toList = none := by
  refine ⟨?_, ?_⟩
  · rw [(C2_malformed_dropped "1. A: B\n\nno delimiters here\n\n2. C: D".toList).1]
    decide
  · exact (C2_malformed_dropped "1. A: B\n\nno delimiters here\n\n2. C: D".toList).2.1
      "no delimiters here".toList (by decide)

/-- Claim C3: when both delimiters are found but the extracted title or
description trims to empty, the candidate yields no record. -/
theorem C3_empty_fields_dropped (item : List Char) (dot_index k : Nat)
    (hdot : findSub dotSp (pyStrip item) = some dot_index)
    (hcol : findSub colSp ((pyStrip item).drop (dot_index + 2)) = some k)
    (hempty : pyStrip (((pyStrip item).drop (dot_index + 2)).take k) = []
            ∨ pyStrip ((pyStrip item).drop (dot_index + 2 + k + 2)) = []) :
    parseItem item = none := by
  unfold parseItem
  have he : pyStrip item ≠ [] := by
    intro h
    rw [h] at hdot
    have hfs : findSub dotSp ([] : List Char) = none := rfl
    rw [hfs] at hdot
    exact absurd hdot (by simp)
  simp only [parseLine, if_neg he, hdot, hcol, Option.map_some',
    show dot_index + 2 + k - (dot_index + 2) = k by omega]
  rcases hempty with h | h
  · rw [if_neg]
    rintro ⟨h1, -⟩
    exact h1 h
  · rw [if_neg]
    rintro ⟨-, h2⟩
    exact h2 h

theorem C3_witness : parseItem "1. : description".toList = none :=
  C3_empty_fields_dropped "1. : description".toList 1 0
    (by decide) (by decide) (Or.inl (by decide))

/-- Claim C8: parsing is deterministic — two runs of `parse_ideas_reply`
on the same raw reply produce the same record sequence. -/
theorem C8_parse_deterministic (reply : List Char) (l₁ l₂ : List IdeaRecord)
    (h₁ : l₁ = parse_ideas_reply reply) (h₂ : l₂ = parse_ideas_reply reply) :
    l₁ = l₂ := h₁.trans h₂.symm

theorem C8_witness :
    parse_ideas_reply "1. A: B".toList = parse_ideas_reply "1. A: B".toList :=
  C8_parse_deterministic "1. A: B".toList _ _ rfl rfl

theorem parseLine_inv {line : List Char} {r : IdeaRecord}
    (h : parseLine line = some r) :
    ∃ di colon_index, findSub dotSp line = some di ∧
      (findSub colSp (line.drop (di + 2))).map (fun k => di + 2 + k)
        = some colon_index ∧
      pyStrip ((line.drop (di + 2)).take (colon_index - (di + 2))) ≠ [] ∧
      pyStrip (line.drop (colon_index + 2)) ≠ [] ∧
      r = IdeaRecord.mk
            (pyStrip ((line.drop (di + 2)).take (colon_index - (di + 2))))
            (pyStrip (line.drop (colon_index + 2))) := by
  unfold parseLine at h
  split at h
  · exact absurd h (by simp)
  · split at h
    · exact absurd h (by simp)
    · rename_i di hdot
      split at h
      · exact absurd h (by simp)
      · rename_i ci hci
        simp only [] at h
        split at h
        · rename_i hcond
          refine ⟨di, ci, hdot, hci, hcond.1, hcond.2, ?_⟩
          have := Option.some.inj h
          exact this.symm
        · exact absurd h (by simp)

/-- Claim C9: every record emitted by the parser has a non-empty,
self-trimmed title and description, and the title contains no `": "`. -/
theorem C9_record_invariant (reply : List Char) (r : IdeaRecord)
    (hr : r ∈ parse_ideas_reply reply) :
    r.idea ≠ [] ∧ r.description ≠ [] ∧
    pyStrip r.idea = r.idea ∧ pyStrip r.description = r.description ∧
    ¬ colSp <:+: r.idea := by
  obtain ⟨item, -, hitem⟩ := List.mem_filterMap.mp hr
  unfold parseItem at hitem
  obtain ⟨di, ci, hdot, hci, ht, hd, hr'⟩ := parseLine_inv hitem
  obtain ⟨k, hk, hkci⟩ := Option.map_eq_some'.mp hci
  subst hr'
  refine ⟨ht, hd, pyStrip_idem _, pyStrip_idem _, ?_⟩
  intro hsub
  simp only [IdeaRecord.mk.injEq] at hsub
  have harith : ci - (di + 2) = k := by omega
  rw [harith] at hsub
  have hsub' : colSp <:+: ((pyStrip item).drop (di + 2)).take k :=
    sub_trans hsub (pyStrip_sub _)
  obtain ⟨j, hj1, hj2⟩ := pair_sub_iff.mp hsub'
  have hjk : j + 1 < k := by
    have hlen := (List.getElem?_eq_some_iff.mp hj2).1
    rw [List.length_take] at hlen
    omega
  have hj1' : ((pyStrip item).drop (di + 2))[j]? = some ':' := by
    rw [List.getElem?_take] at hj1
    rwa [if_pos (by omega)] at hj1
  have hj2' : ((pyStrip item).drop (di + 2))[j + 1]? = some ' ' := by
    rw [List.getElem?_take] at hj2
    rwa [if_pos hjk] at hj2
  have hpre : colSp <+: ((pyStrip item).drop (di + 2)).drop j :=
    pair_pre_of_getElem hj1' hj2'
  exact (findSub_some_min hk).2 j (by omega) hpre

theorem C9_witness :
    (IdeaRecord.mk "A".toList "B".toList).idea ≠ []
    ∧ ¬ colSp <:+: (IdeaRecord.mk "A".toList "B".toList).idea := by
  have h := C9_record_invariant "1. A: B".toList
    (IdeaRecord.mk "A".toList "B".toList) (by decide)
  exact ⟨h.1, h.2.2.2.2⟩

/-- Claim C10 as stated is refuted by the block `"x. : y"`: it contains
`". "` and a later `": "`, yet no record is emitted, because the
extracted title trims to empty. -/
theorem C10_counterexample :
    findSub dotSp (pyStrip "x. : y".toList) = some 1
    ∧ findSub colSp ((pyStrip "x. : y".toList).drop (1 + 2)) = some 0
    ∧ parseItem "x. : y".toList = none := by
  decide

/-- Claim C10, amended: the text before the first `". "` is never
validated as a numeral — for any block `P ++ ". " ++ T ++ ": " ++ D`
where `P` does not contain `". "`, `T` does not contain `": "`, and the
title and description trim to non-empty, a record is emitted whatever
`P` is. -/
theorem C10_no_numeral_validation (P T D : List Char)
    (hP : ¬ dotSp <:+: P) (hT : ¬ colSp <:+: T)
    (hTne : pyStrip T ≠ []) (hDne : pyStrip D ≠ []) :
    parseItem (P ++ (dotSp ++ (T ++ (colSp ++ D))))
      = some { idea := pyStrip T, description := pyStrip D } := by
  rw [parseItem_block P T D hP hT hDne, if_neg hTne]

theorem C10_witness :
    parseItem "foo. Title: Desc".toList
      = some { idea := "Title".toList, description := "Desc".toList }
    ∧ parseItem ". Title: Desc".toList
      = some { idea := "Title".toList, description := "Desc".toList } := by
  constructor
  · have heq : "foo. Title: Desc".toList
        = "foo".toList ++ (dotSp ++ ("Title".toList ++ (colSp ++ "Desc".toList))) := by
      decide
    rw [heq, C10_no_numeral_validation "foo".toList "Title".toList "Desc".toList
      (by decide) (by decide) (by decide) (by decide)]
    decide
  · have heq : ". Title: Desc".toList
        = [] ++ (dotSp ++ ("Title".toList ++ (colSp ++ "Desc".toList))) := by
      decide
    rw [heq, C10_no_numeral_validation [] "Title".toList "Desc".toList
      (by decide) (by decide) (by decide) (by decide)]
    decide


/-! ### Claim theorems for the prompt builder -/

theorem sub_appended {a : List Char} (u v : List Char) {l : List Char}
    (h : l = u ++ (a ++ v)) : a <:+: l :=
  ⟨u, v, by rw [h]; simp [List.append_assoc]⟩

theorem build_prompt_decomp (topic : List Char) :
    build_ideas_prompt topic
      = "Give me a list of 5 ideas for the future of ".toList
        ++ (topic ++ promptSufStripped) := by
  unfold build_ideas_prompt pyStrip
  rw [List.append_assoc]
  have hpre : promptPre
      = '\n' :: "Give me a list of 5 ideas for the future of ".toList := rfl
  rw [hpre, List.cons_append, lstrip_cons_of_space _ (by decide)]
  have hg : "Give me a list of 5 ideas for the future of ".toList
      = 'G' :: "ive me a list of 5 ideas for the future of ".toList := rfl
  rw [hg, List.cons_append, lstrip_cons_of_nonspace _ (by decide),
    ← List.cons_append, ← hg]
  rw [show "Give me a list of 5 ideas for the future of ".toList
      ++ (topic ++ promptSuf)
      = ("Give me a list of 5 ideas for the future of ".toList ++ topic)
        ++ promptSuf from (List.append_assoc _ _ _).symm]
  rw [rstrip_append_of_ne _ (by decide : rstrip promptSuf ≠ [])]
  rw [show rstrip promptSuf = promptSufStripped by decide]
  exact List.append_assoc _ _ _

theorem C6_prompt_contents :
    (∀ topic : List Char,
      ("future of ".toList ++ topic) <:+: build_ideas_prompt topic
      ∧ "Give me a list of 5 ideas".toList <:+: build_ideas_prompt topic
      ∧ formatRuleBlock <:+: build_ideas_prompt topic
      ∧ rulesRuleBlock <:+: build_ideas_prompt topic)
    ∧ "future of Arena".toList <:+: build_ideas_prompt "Arena".toList := by
  have main : ∀ topic : List Char,
      ("future of ".toList ++ topic) <:+: build_ideas_prompt topic
      ∧ "Give me a list of 5 ideas".toList <:+: build_ideas_prompt topic
      ∧ formatRuleBlock <:+: build_ideas_prompt topic
      ∧ rulesRuleBlock <:+: build_ideas_prompt topic := by
    intro topic
    rw [build_prompt_decomp topic]
    refine ⟨?_, ?_, ?_, ?_⟩
    · refine sub_appended "Give me a list of 5 ideas for the ".toList
        promptSufStripped ?_
      rw [show "Give me a list of 5 ideas for the future of ".toList
          = "Give me a list of 5 ideas for the ".toList ++ "future of ".toList
          from rfl]
      simp [List.append_assoc]
    · refine sub_appended []
        (" for the future of ".toList ++ (topic ++ promptSufStripped)) ?_
      rw [show "Give me a list of 5 ideas for the future of ".toList
          = "Give me a list of 5 ideas".toList ++ " for the future of ".toList
          from rfl]
      simp [List.append_assoc]
    · refine sub_appended
        ("Give me a list of 5 ideas for the future of ".toList
          ++ (topic ++ " in the context of convention centers.\n".toList))
        ("\n\nRules:\n- Always include a colon \":\" between the idea title and its description.\n- Use exactly one blank line between ideas.\n- Do not include bullet points or parentheses.\n- Example format:\n\n1. Smart Roofs: Solar panels that change color to adjust heat absorption.\n\n2. Floating Stages: Modular stages that hover above crowds.\n\nReturn only the list, nothing else.".toList) ?_
      rw [show promptSufStripped
          = " in the context of convention centers.\n".toList
            ++ (formatRuleBlock
              ++ "\n\nRules:\n- Always include a colon \":\" between the idea title and its description.\n- Use exactly one blank line between ideas.\n- Do not include bullet points or parentheses.\n- Example format:\n\n1. Smart Roofs: Solar panels that change color to adjust heat absorption.\n\n2. Floating Stages: Modular stages that hover above crowds.\n\nReturn only the list, nothing else.".toList)
          from rfl]
      simp [List.append_assoc]
    · refine sub_appended
        ("Give me a list of 5 ideas for the future of ".toList
          ++ (topic ++ " in the context of convention centers.\nEach idea must be formatted as:\n<number>. <Title>: <Description>\n\n".toList))
        ("\n- Example format:\n\n1. Smart Roofs: Solar panels that change color to adjust heat absorption.\n\n2. Floating Stages: Modular stages that hover above crowds.\n\nReturn only the list, nothing else.".toList) ?_
      rw [show promptSufStripped
          = " in the context of convention centers.\nEach idea must be formatted as:\n<number>. <Title>: <Description>\n\n".toList
            ++ (rulesRuleBlock
              ++ "\n- Example format:\n\n1. Smart Roofs: Solar panels that change color to adjust heat absorption.\n\n2. Floating Stages: Modular stages that hover above crowds.\n\nReturn only the list, nothing else.".toList)
          from rfl]
      simp [List.append_assoc]
  refine ⟨main, ?_⟩
  have h := (main "Arena".toList).1
  rwa [show "future of ".toList ++ "Arena".toList = "future of Arena".toList
    from rfl] at h

/-! ### Claim theorems for the media pipeline -/

theorem processIdeas_ok {ε β : Type} (ig ag : List Char → Except ε β)
    (recs : List IdeaRecord)
    (h : ∀ r ∈ recs, (∃ b, ig (textStringOf r) = .ok b)
                   ∧ (∃ b, ag (voiceTextOf r) = .ok b)) :
    ∃ l, processIdeas ig ag recs = .ok l
       ∧ l.map (fun b => IdeaRecord.mk b.idea b.description) = recs := by
  induction recs with
  | nil => exact ⟨[], rfl, rfl⟩
  | cons r rest ih =>
    obtain ⟨⟨bi, hbi⟩, ⟨ba, hba⟩⟩ := h r (List.mem_cons_self _ _)
    obtain ⟨l, hl, hmap⟩ := ih (fun x hx => h x (List.mem_cons_of_mem _ hx))
    refine ⟨IdeaBundle.mk r.idea r.description bi ba :: l, ?_, ?_⟩
    · simp only [processIdeas, mediaForIdea, hbi, hba, hl]
    · simp [hmap]

/-- Claim C4: when the chat reply parses into M records and every image
and audio call for the retained records succeeds, the pipeline returns
exactly `min K M` bundles, carrying the first `min K M` parsed records in
encounter order. -/
theorem C4_success_truncation {ε β : Type}
    (chat : List Char → Except ε (List Char))
    (ig ag : List Char → Except ε β) (topic : List Char) (K : Nat)
    (raw : List Char)
    (hchat : chat (build_ideas_prompt topic) = .ok raw)
    (hmedia : ∀ r ∈ (parse_ideas_reply raw).take K,
        (∃ b, ig (textStringOf r) = .ok b)
        ∧ (∃ b, ag (voiceTextOf r) = .ok b)) :
    ∃ l, generate_ideas_with_media chat ig ag topic K = .ok l
       ∧ l.length = min K (parse_ideas_reply raw).length
       ∧ l.map (fun b => IdeaRecord.mk b.idea b.description)
           = (parse_ideas_reply raw).take K := by
  obtain ⟨l, hl, hmap⟩ := processIdeas_ok ig ag _ hmedia
  refine ⟨l, ?_, ?_, hmap⟩
  · simp only [generate_ideas_with_media, call_chat_for_ideas, hchat, hl]
  · have hlen := congrArg List.length hmap
    rw [List.length_map, List.length_take] at hlen
    exact hlen

theorem C4_witness :
    ∃ l : List (IdeaBundle Nat),
      generate_ideas_with_media
        (fun _ => (Except.ok "1. A: B\n\n2. C: D".toList : Except Unit (List Char)))
        (fun _ => Except.ok 0) (fun _ => Except.ok 1) "t".toList 1
        = Except.ok l
      ∧ l.length = min 1 (parse_ideas_reply "1. A: B\n\n2. C: D".toList).length
      ∧ l.map (fun b => IdeaRecord.mk b.idea b.description)
          = (parse_ideas_reply "1. A: B\n\n2. C: D".toList).take 1 :=
  C4_success_truncation _ _ _ "t".toList 1 _ rfl
    (fun _ _ => ⟨⟨0, rfl⟩, ⟨1, rfl⟩⟩)

theorem processIdeas_error {ε β : Type} (ig ag : List Char → Except ε β)
    (pre post : List IdeaRecord) (r : IdeaRecord) (e : ε)
    (hpre : ∀ x ∈ pre, ∃ b, mediaForIdea ig ag x = .ok b)
    (hr : mediaForIdea ig ag r = .error e) :
    processIdeas ig ag (pre ++ r :: post) = .error e := by
  induction pre with
  | nil => simp only [List.nil_append, processIdeas, hr]
  | cons x pre' ih =>
    obtain ⟨b, hb⟩ := hpre x (List.mem_cons_self _ _)
    have htail := ih (fun y hy => hpre y (List.mem_cons_of_mem _ hy))
    simp only [List.cons_append, processIdeas, hb, List.append_eq, htail]

/-- Claim C5: a failing image or audio call for any retained idea makes
the whole pipeline call fail with exactly that error: no partial bundle,
no continuation, no bundles from earlier ideas. -/
theorem C5_failure_propagation {ε β : Type}
    (chat : List Char → Except ε (List Char))
    (ig ag : List Char → Except ε β) (topic : List Char) (K : Nat)
    (raw : List Char) (pre post : List IdeaRecord) (r : IdeaRecord) (e : ε)
    (hchat : chat (build_ideas_prompt topic) = .ok raw)
    (hsplit : (parse_ideas_reply raw).take K = pre ++ r :: post)
    (hpre : ∀ x ∈ pre, ∃ b, mediaForIdea ig ag x = .ok b)
    (hfail : ig (textStringOf r) = .error e
           ∨ ∃ b, ig (textStringOf r) = .ok b ∧ ag (voiceTextOf r) = .error e) :
    generate_ideas_with_media chat ig ag topic K = .error e := by
  have hmr : mediaForIdea ig ag r = .error e := by
    rcases hfail with h | ⟨b, hb, ha⟩
    · simp only [mediaForIdea, h]
    · simp only [mediaForIdea, hb, ha]
  simp only [generate_ideas_with_media, call_chat_for_ideas, hchat, hsplit]
  exact processIdeas_error ig ag pre post r e hpre hmr

theorem C5_witness :
    generate_ideas_with_media
      (fun _ => (Except.ok "1. A: B".toList : Except Nat (List Char)))
      (fun _ => (Except.error 7 : Except Nat Nat)) (fun _ => Except.ok 0)
      "t".toList 1 = Except.error 7 :=
  C5_failure_propagation _ _ _ "t".toList 1 _ [] []
    (IdeaRecord.mk "A".toList "B".toList) 7 rfl (by decide)
    (by intro x hx; simp at hx) (Or.inl rfl)

/-- Claim C7: `generate_intro_audio` never propagates a failure — a
failing speech synthesis yields the absent result, a successful one
yields its bytes. -/
theorem C7_intro_never_raises {ε β : Type} (ag : List Char → Except ε β)
    (topic : List Char) :
    (∀ e, ag (introText topic) = .error e →
        generate_intro_audio ag topic = none)
    ∧ (∀ b, ag (introText topic) = .ok b →
        generate_intro_audio ag topic = some b) := by
  constructor
  · intro e he
    simp only [generate_intro_audio, he]
  · intro b hb
    simp only [generate_intro_audio, hb]

theorem C7_witness :
    generate_intro_audio (fun _ => (Except.error () : Except Unit Nat))
      "t".toList = none
    ∧ generate_intro_audio (fun _ => (Except.ok 5 : Except Unit Nat))
      "t".toList = some 5 :=
  ⟨(C7_intro_never_raises _ _).1 () rfl, (C7_intro_never_raises _ _).2 5 rfl⟩
